import Mathlib

/-!
Verification of the resume section segmenter, contact extractor and keyword
match scorer of the Agentic-ResumeMatcher repository.

The embedding models Python strings as `List Char` (ASCII-faithful case and
whitespace semantics), and embeds the regular expressions of
`src/tools/parser.py` as an executable backtracking matcher over a small
regex syntax tree that covers exactly the constructs those patterns use
(character classes with `?`, `*`, `+`, `{m,n}`, `{m,}`, alternation,
word boundaries, one capture group, end anchor).  Enumeration order of the
matcher follows Python's leftmost, greedy, first-alternative backtracking
preference, and `findall`, `match` and `search` are defined on top of it
with CPython's semantics (non-overlapping scan; with exactly one capture
group `findall` returns the group, an empty string when it did not take
part in the match).
-/

namespace ResumeMatcher

/-- Newline character. -/
def nl : Char := Char.ofNat 10

/-- ASCII uppercase letter test. -/
def isUpperC (c : Char) : Bool := decide (65 ≤ c.toNat) && decide (c.toNat ≤ 90)

/-- ASCII lowercase letter test. -/
def isLowerC (c : Char) : Bool := decide (97 ≤ c.toNat) && decide (c.toNat ≤ 122)

/-- ASCII letter test (the cased characters of the ASCII fragment). -/
def isAlphaC (c : Char) : Bool := isUpperC c || isLowerC c

/-- ASCII digit test (Python `str.isdigit` on the ASCII fragment, regex `\d`). -/
def isDigitC (c : Char) : Bool := decide (48 ≤ c.toNat) && decide (c.toNat ≤ 57)

/-- Python / regex whitespace on the ASCII fragment: space, tab, newline,
carriage return, vertical tab, form feed. -/
def isSpacePy (c : Char) : Bool :=
  c.toNat == 32 || c.toNat == 9 || c.toNat == 10 || c.toNat == 13 ||
  c.toNat == 11 || c.toNat == 12

/-- Regex word character `\w` on the ASCII fragment. -/
def isWordC (c : Char) : Bool := isAlphaC c || isDigitC c || c == '_'

/-- Python `str.lower` on the ASCII fragment. -/
def lowerC (c : Char) : Char := if isUpperC c then Char.ofNat (c.toNat + 32) else c

/-- Python `str.upper` on the ASCII fragment. -/
def upperC (c : Char) : Char := if isLowerC c then Char.ofNat (c.toNat - 32) else c

/-- Removal of trailing characters satisfying `p` (Python `rstrip`). -/
def rstripBy (p : Char → Bool) (s : List Char) : List Char :=
  (s.reverse.dropWhile p).reverse

/-- Python `str.strip()`: drop leading and trailing whitespace. -/
def strip (s : List Char) : List Char := rstripBy isSpacePy (s.dropWhile isSpacePy)

/-- Python `str.rstrip(":")`: drop trailing colons. -/
def rstripColon (s : List Char) : List Char := rstripBy (fun c => c == ':') s

/-- Prepend a character onto the first line of a line list (helper of
`splitLines`; the empty case cannot arise, since `splitLines` is never
empty). -/
def consHead (c : Char) : List (List Char) → List (List Char)
  | [] => [[c]]
  | h :: r => (c :: h) :: r

/-- Python `text.split("\n")`: the empty string yields one empty line. -/
def splitLines : List Char → List (List Char)
  | [] => [[]]
  | c :: t => if c == nl then [] :: splitLines t else consHead c (splitLines t)

/-- Python `"\n".join(lines)`. -/
def joinLines : List (List Char) → List Char
  | [] => []
  | [l] => l
  | l :: l2 :: rest => l ++ nl :: joinLines (l2 :: rest)

/-- Does `hay` start with `needle`? -/
def startsWithSub : List Char → List Char → Bool
  | _, [] => true
  | [], _ :: _ => false
  | c :: t, d :: u => c == d && startsWithSub t u

/-- Python substring test `needle in hay`. -/
def containsSub : List Char → List Char → Bool
  | [], needle => needle.isEmpty
  | c :: t, needle => startsWithSub (c :: t) needle || containsSub t needle

/-- Python `str.isupper`: at least one cased character, and no lowercase
cased character (ASCII fragment: cased = letter). -/
def isupperPy (s : List Char) : Bool :=
  s.any isAlphaC && s.all (fun c => !(isLowerC c))

/-- Worker for `istitlePy`; tracks whether the previous character was cased
and whether a cased character has been seen. -/
def istitleGo : List Char → Bool → Bool → Bool
  | [], _, found => found
  | c :: t, prevCased, found =>
    if isUpperC c then (if prevCased then false else istitleGo t true true)
    else if isLowerC c then (if prevCased then istitleGo t true true else false)
    else istitleGo t false found

/-- Python `str.istitle` on the ASCII fragment: uppercase letters only
follow uncased characters, lowercase letters only follow cased ones, and at
least one cased character occurs. -/
def istitlePy (s : List Char) : Bool := istitleGo s false false

/-- Worker for `titlePy`; tracks whether the previous character was cased. -/
def titleGo : List Char → Bool → List Char
  | [], _ => []
  | c :: t, prevCased =>
    if isAlphaC c then (if prevCased then lowerC c else upperC c) :: titleGo t true
    else c :: titleGo t false

/-- Python `str.title` on the ASCII fragment. -/
def titlePy (s : List Char) : List Char := titleGo s false

/-- Worker for `countWordsPy`; the flag records being inside a word. -/
def countWordsGo : List Char → Bool → Nat
  | [], _ => 0
  | c :: t, inWord =>
    if isSpacePy c then countWordsGo t false
    else (if inWord then 0 else 1) + countWordsGo t true

/-- Python `len(s.split())`: number of maximal nonblank runs. -/
def countWordsPy (s : List Char) : Nat := countWordsGo s false

/-- Regex syntax tree covering the constructs used by `parser.py`:
character classes, their `?` / `*` / `+` / `{m,n}` / `{m,}` quantifiers,
concatenation, alternation, optional groups, one capture group, word
boundary `\b` and end anchor `$`. -/
inductive RE where
  | eps
  | wb
  | eol
  | cls (p : Char → Bool)
  | clsStar (p : Char → Bool)
  | clsPlus (p : Char → Bool)
  | clsOpt (p : Char → Bool)
  | clsRange (p : Char → Bool) (m n : Nat)
  | clsLeast (p : Char → Bool) (m : Nat)
  | cat (a b : RE)
  | alt (a b : RE)
  | opt (a : RE)
  | grp (a : RE)

/-- Length of the maximal run of characters satisfying `p`. -/
def runLen (p : Char → Bool) : List Char → Nat
  | [] => 0
  | c :: t => if p c then runLen p t + 1 else 0

/-- Descending list `[hi, hi-1, ..., lo]`, empty when `hi < lo`; used to
enumerate greedy quantifier choices, largest first. -/
def countsDesc (lo hi : Nat) : List Nat :=
  (List.range (hi + 1 - lo)).map (fun i => hi - i)

/-- Word-boundary test between the previous character and the rest of the
input (Python `\b`). -/
def atBoundary (prev : Option Char) (s : List Char) : Bool :=
  (match prev with | some c => isWordC c | none => false) !=
  (match s with | c :: _ => isWordC c | [] => false)

/-- Last character of `consumed`, or the incoming previous character when
nothing was consumed. -/
def lastOf (prev : Option Char) (consumed : List Char) : Option Char :=
  match consumed.getLast? with
  | some c => some c
  | none => prev

/-- All ways a regex can match a prefix of `s`, as pairs of consumed length
and capture-group content, in Python's backtracking preference order
(greedy quantifiers longest first, alternatives left first).  `prev` is the
character just before `s`, for word boundaries. -/
def reMatches : RE → Option Char → List Char → List (Nat × Option (List Char))
  | RE.eps, _, _ => [(0, none)]
  | RE.wb, prev, s => if atBoundary prev s then [(0, none)] else []
  | RE.eol, _, s => if s.isEmpty then [(0, none)] else []
  | RE.cls p, _, s =>
    match s with
    | c :: _ => if p c then [(1, none)] else []
    | [] => []
  | RE.clsStar p, _, s => (countsDesc 0 (runLen p s)).map (fun k => (k, none))
  | RE.clsPlus p, _, s => (countsDesc 1 (runLen p s)).map (fun k => (k, none))
  | RE.clsOpt p, _, s => (countsDesc 0 (min (runLen p s) 1)).map (fun k => (k, none))
  | RE.clsRange p m n, _, s => (countsDesc m (min (runLen p s) n)).map (fun k => (k, none))
  | RE.clsLeast p m, _, s => (countsDesc m (runLen p s)).map (fun k => (k, none))
  | RE.cat a b, prev, s =>
    (reMatches a prev s).flatMap (fun r =>
      (reMatches b (lastOf prev (s.take r.1)) (s.drop r.1)).map
        (fun q => (r.1 + q.1, match r.2 with | some g => some g | none => q.2)))
  | RE.alt a b, prev, s => reMatches a prev s ++ reMatches b prev s
  | RE.opt a, prev, s => reMatches a prev s ++ [(0, none)]
  | RE.grp a, prev, s => (reMatches a prev s).map (fun r => (r.1, some (s.take r.1)))

/-- Python `pattern.match(s)`: the preferred match anchored at the start,
if any. -/
def reMatch (re : RE) (s : List Char) : Option (Nat × Option (List Char)) :=
  (reMatches re none s).head?

/-- Python `re.findall`-style scan worker: non-overlapping matches left to
right, each the preferred match at the leftmost position where one exists;
yields the matched text and the capture group.  An empty-width match
advances the scan by one character, as in CPython.  `fuel` only bounds the
recursion for the kernel: every step either stops or moves to a strictly
shorter suffix, so the initial fuel `s.length + 1` chosen by `scanFrom` is
never exhausted. -/
def scanFromFuel (re : RE) : Nat → Option Char → List Char → List (List Char × Option (List Char))
  | 0, _, _ => []
  | _ + 1, prev, [] =>
    match (reMatches re prev []).head? with
    | some r => [([], r.2)]
    | none => []
  | fuel + 1, prev, c :: t =>
    match (reMatches re prev (c :: t)).head? with
    | some r =>
      if r.1 = 0 then ([], r.2) :: scanFromFuel re fuel (some c) t
      else
        (List.take r.1 (c :: t), r.2) ::
          scanFromFuel re fuel (lastOf prev (List.take r.1 (c :: t))) (List.drop r.1 (c :: t))
    | none => scanFromFuel re fuel (some c) t

/-- Python `re.findall`-style scan over a whole string. -/
def scanFrom (re : RE) (prev : Option Char) (s : List Char) :
    List (List Char × Option (List Char)) :=
  scanFromFuel re (s.length + 1) prev s

/-- Python `re.search(...) is not None`. -/
def reSearch (re : RE) (s : List Char) : Bool := !(scanFrom re none s).isEmpty

/-- Case-insensitive literal (each pattern of `parser.py` that carries
`re.IGNORECASE`). -/
def litCI : List Char → RE
  | [] => RE.eps
  | c :: t => RE.cat (RE.cls (fun d => lowerC d == lowerC c)) (litCI t)

/-- Case-sensitive literal. -/
def litCS : List Char → RE
  | [] => RE.eps
  | c :: t => RE.cat (RE.cls (fun d => d == c)) (litCS t)

/-- Words joined by `\s+`, matched case-insensitively: one alternative of a
section-title pattern such as `WORK\s+EXPERIENCE`. -/
def phrase : List String → RE
  | [] => RE.eps
  | [w] => litCI w.data
  | w :: w2 :: rest => RE.cat (litCI w.data) (RE.cat (RE.clsPlus isSpacePy) (phrase (w2 :: rest)))

/-- Alternation of a nonempty list of regexes, preferring earlier entries. -/
def altList : List RE → RE
  | [] => RE.cls (fun _ => false)
  | [re] => re
  | re :: re2 :: rest => RE.alt re (altList (re2 :: rest))

/-- The `SECTION_PATTERNS` list of `ResumeParserTool`, compiled with
`re.IGNORECASE`; each entry is an anchored alternation of section-title
phrases, matched with `pattern.match` (a prefix match — there is no
trailing anchor, so e.g. `EXPERIENCED ...` matches the `EXPERIENCE`
alternative). -/
def sectionPatterns : List RE := [
  altList [phrase [r"PROFESSIONAL", r"SUMMARY"], phrase [r"SUMMARY"],
           phrase [r"PROFILE"], phrase [r"OBJECTIVE"]],
  altList [phrase [r"WORK", r"EXPERIENCE"], phrase [r"EXPERIENCE"],
           phrase [r"EMPLOYMENT", r"HISTORY"], phrase [r"PROFESSIONAL", r"EXPERIENCE"]],
  altList [phrase [r"EDUCATION"], phrase [r"ACADEMIC", r"BACKGROUND"],
           phrase [r"ACADEMIC", r"QUALIFICATIONS"]],
  altList [phrase [r"SKILLS"], phrase [r"TECHNICAL", r"SKILLS"],
           phrase [r"CORE", r"COMPETENCIES"], phrase [r"EXPERTISE"]],
  altList [phrase [r"CERTIFICATIONS"], phrase [r"CERTIFICATES"],
           phrase [r"PROFESSIONAL", r"CERTIFICATIONS"]],
  altList [phrase [r"PROJECTS"], phrase [r"KEY", r"PROJECTS"],
           phrase [r"NOTABLE", r"PROJECTS"]],
  altList [phrase [r"AWARDS"], phrase [r"HONORS"], phrase [r"ACHIEVEMENTS"],
           phrase [r"ACCOMPLISHMENTS"]],
  altList [phrase [r"PUBLICATIONS"], phrase [r"RESEARCH"], phrase [r"PAPERS"]],
  altList [phrase [r"VOLUNTEER"], phrase [r"VOLUNTEER", r"EXPERIENCE"],
           phrase [r"COMMUNITY", r"SERVICE"]],
  altList [phrase [r"LANGUAGES"], phrase [r"LANGUAGE", r"SKILLS"]],
  altList [phrase [r"INTERESTS"], phrase [r"HOBBIES"]],
  altList [phrase [r"REFERENCES"]]]

/-- Character class of the email local part, `[A-Za-z0-9._%+-]`. -/
def emailLocalC (c : Char) : Bool :=
  isAlphaC c || isDigitC c || c == '.' || c == '_' || c == '%' || c == '+' || c == '-'

/-- Character class of the email domain, `[A-Za-z0-9.-]`. -/
def emailDomainC (c : Char) : Bool :=
  isAlphaC c || isDigitC c || c == '.' || c == '-'

/-- Character class of the email top-level domain, `[A-Z|a-z]` — note the
literal `|` inside the class, exactly as in the source pattern. -/
def emailTldC (c : Char) : Bool := isUpperC c || c == '|' || isLowerC c

/-- `EMAIL_PATTERN = \b[A-Za-z0-9._%+-]+@[A-Za-z0-9.-]+\.[A-Z|a-z]{2,}\b`. -/
def emailRE : RE :=
  RE.cat RE.wb (RE.cat (RE.clsPlus emailLocalC) (RE.cat (RE.cls (fun c => c == '@'))
    (RE.cat (RE.clsPlus emailDomainC) (RE.cat (RE.cls (fun c => c == '.'))
      (RE.cat (RE.clsLeast emailTldC 2) RE.wb)))))

/-- Phone separator class `[-.\s]`. -/
def phoneSepC (c : Char) : Bool := c == '-' || c == '.' || isSpacePy c

/-- `PHONE_PATTERN = (\+?\d{1,3}[-.\s]?)?\(?\d{3}\)?[-.\s]?\d{3}[-.\s]?\d{4}`;
the optional country-code part is the pattern's only capture group. -/
def phoneRE : RE :=
  RE.cat (RE.opt (RE.grp (RE.cat (RE.clsOpt (fun c => c == '+'))
      (RE.cat (RE.clsRange isDigitC 1 3) (RE.clsOpt phoneSepC)))))
    (RE.cat (RE.clsOpt (fun c => c == '('))
      (RE.cat (RE.clsRange isDigitC 3 3)
        (RE.cat (RE.clsOpt (fun c => c == ')'))
          (RE.cat (RE.clsOpt phoneSepC)
            (RE.cat (RE.clsRange isDigitC 3 3)
              (RE.cat (RE.clsOpt phoneSepC) (RE.clsRange isDigitC 4 4)))))))

/-- Class `[\w-]` of the LinkedIn handle. -/
def wordDashC (c : Char) : Bool := isWordC c || c == '-'

/-- `LINKEDIN_PATTERN = linkedin\.com/in/[\w-]+`, searched with
`re.IGNORECASE`. -/
def linkedinRE : RE := RE.cat (litCI (r"linkedin.com/in/").data) (RE.clsPlus wordDashC)

/-- Negated class of `URL_PATTERN`: everything except whitespace and
the characters whitespace `<` `>` `"` `{` `}` `|` `\` `^` backtick `[` `]`
(some written by code point to keep the source plain). -/
def urlBadC (c : Char) : Bool :=
  isSpacePy c || c == '<' || c == '>' || c.toNat == 34 || c.toNat == 123 ||
  c.toNat == 125 || c == '|' || c.toNat == 92 || c == '^' || c.toNat == 96 ||
  c == '[' || c == ']'

/-- `URL_PATTERN = https?://[^\s<>"{}|\\^`\[\]]+` (case-sensitive). -/
def urlRE : RE :=
  RE.cat (litCS (r"http").data) (RE.cat (RE.clsOpt (fun c => c == 's'))
    (RE.cat (litCS (r"://").data) (RE.clsPlus (fun c => !(urlBadC c)))))

/-- Phone-shaped pattern `\d{3}[-.\s]?\d{3}[-.\s]?\d{4}` used by the name
heuristic of `_extract_contact_info`. -/
def namePhoneRE : RE :=
  RE.cat (RE.clsRange isDigitC 3 3)
    (RE.cat (RE.clsOpt phoneSepC)
      (RE.cat (RE.clsRange isDigitC 3 3)
        (RE.cat (RE.clsOpt phoneSepC) (RE.clsRange isDigitC 4 4))))

/-- Bullet symbol class `[•●■▪▸►→-]` of the first bullet pattern. -/
def bulletSymC (c : Char) : Bool :=
  c == '•' || c == '●' || c == '■' || c == '▪' || c == '▸' || c == '►' ||
  c == '→' || c == '-'

/-- Regex `.` without DOTALL: any character but newline. -/
def dotC (c : Char) : Bool := !(c == nl)

/-- Bullet pattern `^\s*[•●■▪▸►→-]\s+(.+)$`. -/
def bulletRE1 : RE :=
  RE.cat (RE.clsStar isSpacePy) (RE.cat (RE.cls bulletSymC)
    (RE.cat (RE.clsPlus isSpacePy) (RE.cat (RE.grp (RE.clsPlus dotC)) RE.eol)))

/-- Bullet pattern `^\s*\*\s+(.+)$`. -/
def bulletRE2 : RE :=
  RE.cat (RE.clsStar isSpacePy) (RE.cat (RE.cls (fun c => c == '*'))
    (RE.cat (RE.clsPlus isSpacePy) (RE.cat (RE.grp (RE.clsPlus dotC)) RE.eol)))

/-- Bullet pattern `^\s*\d+\.\s+(.+)$`. -/
def bulletRE3 : RE :=
  RE.cat (RE.clsStar isSpacePy) (RE.cat (RE.clsPlus isDigitC)
    (RE.cat (RE.cls (fun c => c == '.'))
      (RE.cat (RE.clsPlus isSpacePy) (RE.cat (RE.grp (RE.clsPlus dotC)) RE.eol))))

/-- The `bullet_patterns` list of `_extract_bullet_points`, in source
order (first match wins). -/
def bulletPatterns : List RE := [bulletRE1, bulletRE2, bulletRE3]

/-- One section of a parsed resume (`ResumeSection` of
`models/resume_data.py`, a record not present under `src/`; modelled from
the spec: name, raw content string and derived bullet-point list). -/
structure ResumeSection where
  section_name : List Char
  content : List Char
  bullet_points : List (List Char)
deriving DecidableEq

/-- Parsed resume (`ParsedResume` of `models/resume_data.py`, modelled
from the spec: raw text, ordered sections, contact-info mapping). -/
structure ParsedResume where
  raw_text : List Char
  sections : List ResumeSection
  contact_info : List (List Char × List Char)
deriving DecidableEq

/-- `_normalize_section_name`: strip, drop trailing colons, uppercase,
then map by substring tests in source order; otherwise Python
`str.title()` of the uppercased header. -/
def normalize_section_name (header : List Char) : List Char :=
  let h := List.map upperC (rstripColon (strip header))
  if containsSub h (r"SUMMARY").data || containsSub h (r"PROFILE").data ||
     containsSub h (r"OBJECTIVE").data then (r"Professional Summary").data
  else if containsSub h (r"EXPERIENCE").data || containsSub h (r"EMPLOYMENT").data then
    (r"Work Experience").data
  else if containsSub h (r"EDUCATION").data || containsSub h (r"ACADEMIC").data then
    (r"Education").data
  else if containsSub h (r"SKILL").data || containsSub h (r"COMPETENC").data ||
     containsSub h (r"EXPERTISE").data then (r"Skills").data
  else if containsSub h (r"CERTIFICATION").data || containsSub h (r"CERTIFICATE").data then
    (r"Certifications").data
  else if containsSub h (r"PROJECT").data then (r"Projects").data
  else if containsSub h (r"AWARD").data || containsSub h (r"HONOR").data ||
     containsSub h (r"ACHIEVEMENT").data then (r"Awards & Achievements").data
  else if containsSub h (r"PUBLICATION").data || containsSub h (r"RESEARCH").data then
    (r"Publications").data
  else if containsSub h (r"VOLUNTEER").data || containsSub h (r"COMMUNITY").data then
    (r"Volunteer Experience").data
  else if containsSub h (r"LANGUAGE").data then (r"Languages").data
  else if containsSub h (r"INTEREST").data || containsSub h (r"HOBBIES").data then
    (r"Interests").data
  else if containsSub h (r"REFERENCE").data then (r"References").data
  else titlePy h

/-- `_is_section_header`: first the known patterns (normalizing the name),
then the fallback heuristic — a line shorter than 50 characters that is
fully uppercase or title case, returned with trailing colons removed and
stripped. -/
def is_section_header (line : List Char) : Bool × Option (List Char) :=
  if sectionPatterns.any (fun re => (reMatch re line).isSome) then
    (true, some (normalize_section_name line))
  else if decide (line.length < 50) && (isupperPy line || istitlePy line) then
    (true, some (strip (if line.any (fun c => c == ':') then rstripColon line else line)))
  else (false, none)

/-- The loop condition `if is_header and section_name:` of
`_split_into_sections` on a raw line: the header name when the stripped
line is recognized as a header with a truthy (nonempty) name. -/
def lineHeaderName (line : List Char) : Option (List Char) :=
  if (is_section_header (strip line)).1 &&
     !(((is_section_header (strip line)).2.getD []).isEmpty) then
    (is_section_header (strip line)).2
  else none

/-- One finalized section of the segmentation loop, instrumented with the
raw header line that opened it (the source keeps only name and content;
projecting away `header` recovers exactly the source's data, and the extra
field is needed to state the reconstruction property of the spec). -/
structure SecBlock where
  header : List Char
  name : List Char
  contentLines : List (List Char)
deriving DecidableEq

/-- Finalization step of `_split_into_sections`: `if current_section_name
and current_content: sections.append(...)`. -/
def flushInto (cur : Option (List Char × List Char)) (content : List (List Char))
    (acc : List SecBlock) : List SecBlock :=
  match cur with
  | some (h, n) => if !n.isEmpty && !content.isEmpty then acc ++ [⟨h, n, content⟩] else acc
  | none => acc

/-- Line loop of `_split_into_sections`: a header line finalizes the
current section and opens a new one; a nonblank line accumulates under the
open section (raw, unstripped); other lines are skipped.  At the end the
open section is finalized. -/
def segLoop : List (List Char) → Option (List Char × List Char) →
    List (List Char) → List SecBlock → List SecBlock
  | [], cur, content, acc => flushInto cur content acc
  | line :: rest, cur, content, acc =>
    match lineHeaderName line with
    | some nm => segLoop rest (some (line, nm)) [] (flushInto cur content acc)
    | none =>
      match cur with
      | some (h, n) =>
        if !n.isEmpty && !(strip line).isEmpty then
          segLoop rest (some (h, n)) (content ++ [line]) acc
        else segLoop rest (some (h, n)) content acc
      | none => segLoop rest cur content acc

/-- Sections produced by the loop of `_split_into_sections` before the
fallback check, with their original header lines. -/
def sectionsRawOf (text : List Char) : List SecBlock :=
  segLoop (splitLines text) none [] []

/-- First-match-wins inner loop of `_extract_bullet_points` over the three
bullet patterns; yields `match.group(1)`. -/
def tryBullet : List RE → List Char → Option (List Char)
  | [], _ => none
  | re :: rest, line =>
    match reMatch re line with
    | some r => some (r.2.getD [])
    | none => tryBullet rest line

/-- Line loop of `_extract_bullet_points`, appending the stripped first
matching group of each line. -/
def bulletsGo : List (List Char) → List (List Char)
  | [] => []
  | l :: rest =>
    match tryBullet bulletPatterns l with
    | some g => strip g :: bulletsGo rest
    | none => bulletsGo rest

/-- `_extract_bullet_points`. -/
def extract_bullet_points (text : List Char) : List (List Char) :=
  bulletsGo (splitLines text)

/-- `_create_section`: join the accumulated lines and extract bullets. -/
def create_section (name : List Char) (contentLines : List (List Char)) : ResumeSection :=
  ⟨name, joinLines contentLines, extract_bullet_points (joinLines contentLines)⟩

/-- `_split_into_sections`: run the loop, then fall back to a single
"Full Resume" section holding the whole raw text when nothing was
finalized. -/
def split_into_sections (text : List Char) : List ResumeSection :=
  if ((sectionsRawOf text).map (fun b => create_section b.name b.contentLines)).isEmpty then
    [⟨(r"Full Resume").data, text, extract_bullet_points text⟩]
  else (sectionsRawOf text).map (fun b => create_section b.name b.contentLines)

/-- Name heuristic of `_extract_contact_info`: among the first five lines,
the first stripped line that is nonempty, shorter than 50 characters,
digit-free, title-case or short all-caps, and contains neither `@` nor a
phone-shaped substring. -/
def findName : List (List Char) → Option (List Char)
  | [] => none
  | l :: rest =>
    if !(strip l).isEmpty && decide ((strip l).length < 50) &&
       !((strip l).any isDigitC) &&
       (istitlePy (strip l) || (isupperPy (strip l) && decide (countWordsPy (strip l) ≤ 4))) &&
       !((strip l).any (fun c => c == '@')) && !(reSearch namePhoneRE (strip l)) then
      some (strip l)
    else findName rest

/-- `_extract_contact_info`: first email match; first phone match — with
exactly one capture group, `re.findall` returns the group string, so the
stored phone is the optional country-code group (empty when it did not
take part in the match); first LinkedIn handle, prefixed with `https://`;
first non-LinkedIn URL; then the name heuristic over the first five
lines.  Keys are inserted in source order. -/
def extract_contact_info (text : List Char) : List (List Char × List Char) :=
  let ci1 : List (List Char × List Char) :=
    match ((scanFrom emailRE none text).map (fun q => q.1)).head? with
    | some e => [((r"email").data, e)]
    | none => []
  let ci2 :=
    match ((scanFrom phoneRE none text).map (fun q => q.2.getD [])).head? with
    | some p => ci1 ++ [((r"phone").data, p)]
    | none => ci1
  let ci3 :=
    match ((scanFrom linkedinRE none text).map (fun q => q.1)).head? with
    | some m => ci2 ++ [((r"linkedin").data, (r"https://").data ++ m)]
    | none => ci2
  let ci4 :=
    match (((scanFrom urlRE none text).map (fun q => q.1)).filter
        (fun u => !(containsSub (List.map lowerC u) (r"linkedin.com").data))).head? with
    | some u => ci3 ++ [((r"website").data, u)]
    | none => ci3
  match findName ((splitLines text).take 5) with
  | some nm => ci4 ++ [((r"name").data, nm)]
  | none => ci4

/-- `parse_resume` of `ResumeParserTool`. -/
def parse_resume (text : List Char) : ParsedResume :=
  ⟨text, split_into_sections text, extract_contact_info text⟩

/-- Job requirements record (`JobAnalysis` of the missing models module;
modelled from the spec — only the three ordered string sequences used by
the scorer are needed). -/
structure JobAnalysis where
  hard_skills : List (List Char)
  soft_skills : List (List Char)
  keywords : List (List Char)

/-- Rounding of the nonnegative fraction `a / b` (with `b > 0`) to the
nearest natural number, ties to even — the rounding used both by IEEE-754
binary64 arithmetic and by Python's decimal `round`. -/
def roundHalfEvenFrac (a b : Nat) : Nat :=
  if 2 * (a % b) < b then a / b
  else if b < 2 * (a % b) then a / b + 1
  else if a / b % 2 = 0 then a / b else a / b + 1

/-- Floor of the base-2 logarithm of a natural number, by fuel-bounded
halving; `fuel = n` always suffices. -/
def log2Fuel : Nat → Nat → Nat
  | 0, _ => 0
  | fuel + 1, n => if 2 ≤ n then log2Fuel fuel (n / 2) + 1 else 0

/-- Floor of the base-2 logarithm of a natural number (0 for 0 and 1). -/
def natLog2 (n : Nat) : Nat := log2Fuel n n

/-- Floor of the base-2 logarithm of the positive fraction `a / b`: for
`a ≥ b` it is `⌊log2 ⌊a/b⌋⌋`; for `a < b` it is `-g` when `b = a·2^g`
exactly and `-g - 1` otherwise, where `g = ⌊log2 ⌊b/a⌋⌋`. -/
def floorLog2Frac (a b : Nat) : ℤ :=
  if b ≤ a then (natLog2 (a / b) : ℤ)
  else if b = a * 2 ^ natLog2 (b / a) then -(natLog2 (b / a) : ℤ)
  else -(natLog2 (b / a) : ℤ) - 1

/-- Exact value, as an unreduced numerator-denominator pair, of the
IEEE-754 binary64 double nearest to the nonnegative fraction `a / b`
(ties to even): the grid spacing is `2 ^ max (-1074) (⌊log2 (a/b)⌋ - 52)`,
where the `max` handles gradual underflow to subnormals and to zero.
Every value arising in `calculate_match_score` lies in `[0, 100]`, far
below the overflow threshold, so no infinity case is needed. -/
def fpRound (a b : Nat) : Nat × Nat :=
  if a = 0 then (0, 1)
  else if 0 ≤ max (-1074 : ℤ) (floorLog2Frac a b - 52) then
    (roundHalfEvenFrac a (b * 2 ^ (max (-1074 : ℤ) (floorLog2Frac a b - 52)).toNat) *
      2 ^ (max (-1074 : ℤ) (floorLog2Frac a b - 52)).toNat, 1)
  else
    (roundHalfEvenFrac (a * 2 ^ (-(max (-1074 : ℤ) (floorLog2Frac a b - 52))).toNat) b,
      2 ^ (-(max (-1074 : ℤ) (floorLog2Frac a b - 52))).toNat)

/-- Exact rounding of the fraction `a / b` to one decimal place, ties to
even: as a value, `roundHalfEven(10·a/b) / 10`.  This is both the decimal
step of CPython's `round(x, 1)` and the idealized exact-rational rounding
that the float pipeline is compared against. -/
def roundTo1Frac (a b : Nat) : Nat × Nat := (roundHalfEvenFrac (10 * a) b, 10)

/-- CPython's true division of two nonnegative ints, `m / n`: the exact
quotient correctly rounded to binary64 (ties to even), as done by
`long_true_divide` for ints of any size. -/
def pyDivFloat (m n : Nat) : Nat × Nat := fpRound m n

/-- CPython float multiplication: the exact product of the two doubles,
correctly rounded to binary64.  (In `x * 100` the int 100 converts to
binary64 exactly, as the pair `(100, 1)`.) -/
def pyMulFloat (x y : Nat × Nat) : Nat × Nat := fpRound (x.1 * y.1) (x.2 * y.2)

/-- CPython `round(x, 1)` on a float of exact value `x.1 / x.2`: the exact
value is rounded to one decimal digit, ties to even (David Gay's correctly
rounded `dtoa`), and the resulting decimal converts back to the nearest
binary64 (`strtod`). -/
def pyRound1 (x : Nat × Nat) : Nat × Nat :=
  fpRound (roundTo1Frac x.1 x.2).1 (roundTo1Frac x.1 x.2).2

/-- Rational value of a numerator-denominator pair. -/
def ratOfFrac (x : Nat × Nat) : ℚ := mkRat x.1 x.2

/-- `calculate_match_score` of `ResumeTailorAgent`: concatenate hard
skills, soft skills and keywords; `0.0` when empty; otherwise the
percentage of items whose lowercase form is a substring of the lowercased
resume, computed as `(matched_count / len) * 100` in binary64 float
arithmetic and rounded to one decimal place with Python's `round(x, 1)`.
The returned rational is the exact value of the returned double. -/
def calculate_match_score (resume : List Char) (ja : JobAnalysis) : ℚ :=
  if (ja.hard_skills ++ ja.soft_skills ++ ja.keywords).isEmpty then 0
  else
    ratOfFrac (pyRound1 (pyMulFloat
      (pyDivFloat
        ((ja.hard_skills ++ ja.soft_skills ++ ja.keywords).countP
          (fun item => containsSub (List.map lowerC resume) (List.map lowerC item)))
        ((ja.hard_skills ++ ja.soft_skills ++ ja.keywords).length))
      (100, 1)))

/-- Content lines of a list of finalized sections, in emission order. -/
def blockContents : List SecBlock → List (List Char)
  | [] => []
  | b :: bs => b.contentLines ++ blockContents bs

/-- Raw lines of a list of finalized sections: each original header line
followed by that section's content lines. -/
def blockLinesAll : List SecBlock → List (List Char)
  | [] => []
  | b :: bs => b.header :: (b.contentLines ++ blockLinesAll bs)

/-- Reconstruction used by the spec's idempotence property: the emitted
section contents re-joined with each section's original header line
reinserted before it.  The fallback section has no header of its own and
already holds the whole raw text, so it reconstructs as that text. -/
def reconstructText (text : List Char) : List Char :=
  match sectionsRawOf text with
  | [] => text
  | b :: bs => joinLines (blockLinesAll (b :: bs))

/-- A line that is neither recognized as a header with a truthy name nor
blank: the loop of `_split_into_sections` accumulates exactly these under
an open section. -/
def goodLine (l : List Char) : Prop :=
  lineHeaderName l = none ∧ (strip l).isEmpty = false

/-- Newline-free character list (every line produced by `splitLines`). -/
def noNL (l : List Char) : Prop := ∀ c ∈ l, c ≠ nl

/-- Invariant of every finalized section: its header line is recognized
with its stored name, it has at least one content line, its content lines
are neither headers nor blank, and no stored line contains a newline. -/
def GoodBlock (b : SecBlock) : Prop :=
  lineHeaderName b.header = some b.name ∧ b.contentLines ≠ [] ∧
  (∀ l ∈ b.contentLines, goodLine l) ∧ noNL b.header ∧ ∀ l ∈ b.contentLines, noNL l

/-- Input of the spec's contact-extraction example (claim C5). -/
def c5Text : List Char := (r"Reach me at jane.doe@example.com or 415-555-0100").data

/-- Resume text whose first line precedes any recognized header (claim C2
counterexample). -/
def c2Text : List Char := joinLines [(r"x").data, (r"EDUCATION").data, (r"y").data]

/-- Header-free resume text with surrounding whitespace (claim C3
counterexample). -/
def c3Text : List Char := (r"  hello world").data

/-- Header-free two-line resume text (claim C3 witness). -/
def c3WitnessText : List Char :=
  joinLines [(r"just some plain text").data, (r"written in lowercase").data]

/-- Two-section resume text (claim C2 witness). -/
def c2WitnessText : List Char :=
  joinLines [(r"EDUCATION").data, (r"BS degree").data,
             (r"SKILLS").data, (r"Python and SQL").data]

/-- Resume text consisting solely of recognized header lines (claim C10
witness). -/
def c10WitnessText : List Char := joinLines [(r"EDUCATION").data, (r"SKILLS").data]

/-! Helper lemmas about the list and line primitives. -/

lemma isEmpty_false_of_ne_nil {α : Type} {l : List α} (h : l ≠ []) : l.isEmpty = false := by
  cases l with
  | nil => exact absurd rfl h
  | cons a as => rfl

lemma lineHeaderName_some_ne {l nm : List Char} (h : lineHeaderName l = some nm) : nm ≠ [] := by
  unfold lineHeaderName at h
  split_ifs at h with hg
  intro hnil
  subst hnil
  rw [h] at hg
  simp at hg

lemma joinLines_cons (l : List Char) (L : List (List Char)) (h : L ≠ []) :
    joinLines (l :: L) = l ++ nl :: joinLines L := by
  cases L with
  | nil => exact absurd rfl h
  | cons x xs => rfl

lemma joinLines_append (xs ys : List (List Char)) (hx : xs ≠ []) (hy : ys ≠ []) :
    joinLines (xs ++ ys) = joinLines xs ++ nl :: joinLines ys := by
  induction xs with
  | nil => exact absurd rfl hx
  | cons x xs ih =>
    cases xs with
    | nil => simp [joinLines_cons x ys hy, joinLines]
    | cons x2 xs2 =>
      have h2 : (x2 :: xs2 : List (List Char)) ≠ [] := by simp
      rw [List.cons_append]
      rw [joinLines_cons x ((x2 :: xs2) ++ ys) (by simp)]
      rw [joinLines_cons x (x2 :: xs2) h2]
      rw [ih h2]
      simp

lemma splitLines_noNL (s : List Char) : ∀ l ∈ splitLines s, noNL l := by
  induction s with
  | nil =>
    intro l hl
    simp [splitLines] at hl
    subst hl
    intro c hc
    simp at hc
  | cons c t ih =>
    intro l hl
    unfold splitLines at hl
    by_cases hc : (c == nl) = true
    · rw [if_pos hc] at hl
      rcases List.mem_cons.mp hl with h | h
      · subst h; intro c2 hc2; simp at hc2
      · exact ih l h
    · rw [if_neg hc] at hl
      cases h2 : splitLines t with
      | nil =>
        rw [h2] at hl
        simp [consHead] at hl
        subst hl
        intro c2 hc2
        simp at hc2
        subst hc2
        simpa using hc
      | cons a b =>
        rw [h2] at hl
        simp only [consHead] at hl
        rcases List.mem_cons.mp hl with h | h
        · subst h
          intro c2 hc2
          rcases List.mem_cons.mp hc2 with h3 | h3
          · subst h3; simpa using hc
          · exact ih a (by rw [h2]; exact List.mem_cons_self a b) c2 h3
        · exact ih l (by rw [h2]; exact List.mem_cons.mpr (Or.inr h))

lemma splitLines_single {l : List Char} (h : noNL l) : splitLines l = [l] := by
  induction l with
  | nil => rfl
  | cons c t ih =>
    have hc : c ≠ nl := h c (List.mem_cons_self c t)
    have ht : noNL t := fun x hx => h x (List.mem_cons.mpr (Or.inr hx))
    simp only [splitLines]
    rw [if_neg (by simpa using hc), ih ht]
    rfl

lemma splitLines_break {l : List Char} (h : noNL l) (s : List Char) :
    splitLines (l ++ nl :: s) = l :: splitLines s := by
  induction l with
  | nil => simp [splitLines]
  | cons c t ih =>
    have hc : c ≠ nl := h c (List.mem_cons_self c t)
    have ht : noNL t := fun x hx => h x (List.mem_cons.mpr (Or.inr hx))
    rw [List.cons_append]
    simp only [splitLines]
    rw [if_neg (by simpa using hc), ih ht]
    rfl

lemma splitLines_joinLines {L : List (List Char)} (hne : L ≠ [])
    (h : ∀ l ∈ L, noNL l) : splitLines (joinLines L) = L := by
  induction L with
  | nil => exact absurd rfl hne
  | cons l L ih =>
    cases L with
    | nil => exact splitLines_single (h l (by simp))
    | cons l2 L2 =>
      rw [joinLines_cons l (l2 :: L2) (by simp)]
      rw [splitLines_break (h l (by simp))]
      rw [ih (by simp) (fun x hx => h x (List.mem_cons.mpr (Or.inr hx)))]

lemma blockContents_append (xs ys : List SecBlock) :
    blockContents (xs ++ ys) = blockContents xs ++ blockContents ys := by
  induction xs with
  | nil => rfl
  | cons b bs ih => simp [blockContents, ih]

lemma blockLinesAll_noNL (bs : List SecBlock) (h : ∀ b ∈ bs, GoodBlock b) :
    ∀ l ∈ blockLinesAll bs, noNL l := by
  induction bs with
  | nil => intro l hl; simp [blockLinesAll] at hl
  | cons b bs ih =>
    intro l hl
    obtain ⟨_, _, _, hh, hc⟩ := h b (by simp)
    simp only [blockLinesAll] at hl
    rcases List.mem_cons.mp hl with h1 | h1
    · subst h1; exact hh
    · rcases List.mem_append.mp h1 with h2 | h2
      · exact hc l h2
      · exact ih (fun x hx => h x (by simp [hx])) l h2

/-! Lemmas about the segmentation loop. -/

lemma flushInto_none_eq (content : List (List Char)) (acc : List SecBlock) :
    flushInto none content acc = acc := rfl

lemma flushInto_some_eq (h n : List Char) (content : List (List Char)) (acc : List SecBlock) :
    flushInto (some (h, n)) content acc =
      if (!n.isEmpty && !content.isEmpty) = true then acc ++ [⟨h, n, content⟩] else acc := rfl

lemma flushInto_nilContent (cur : Option (List Char × List Char)) (acc : List SecBlock) :
    flushInto cur [] acc = acc := by
  cases cur with
  | none => rfl
  | some pr => obtain ⟨h, n⟩ := pr; simp [flushInto]

lemma flushInto_some_ne (h n : List Char) (cs : List (List Char)) (acc : List SecBlock)
    (hn : n ≠ []) (hcs : cs ≠ []) :
    flushInto (some (h, n)) cs acc = acc ++ [⟨h, n, cs⟩] := by
  rw [flushInto_some_eq, isEmpty_false_of_ne_nil hn, isEmpty_false_of_ne_nil hcs]
  rfl

lemma blockContents_flush_some (h n : List Char) (content : List (List Char))
    (acc : List SecBlock) (hn : n ≠ []) :
    blockContents (flushInto (some (h, n)) content acc) = blockContents acc ++ content := by
  cases content with
  | nil => simp [flushInto, blockContents]
  | cons c cs =>
    rw [flushInto_some_ne h n (c :: cs) acc hn (by simp)]
    simp [blockContents_append, blockContents]

lemma segLoop_contents (lines : List (List Char)) :
    ∀ (h n : List Char) (content : List (List Char)) (acc : List SecBlock), n ≠ [] →
    blockContents (segLoop lines (some (h, n)) content acc) =
      blockContents acc ++ content ++
        lines.filter (fun l => (lineHeaderName l).isNone && !(strip l).isEmpty) := by
  induction lines with
  | nil =>
    intro h n content acc hn
    simp only [segLoop, List.filter_nil, List.append_nil]
    exact blockContents_flush_some h n content acc hn
  | cons line rest ih =>
    intro h n content acc hn
    cases hl : lineHeaderName line with
    | some nm =>
      have hnm : nm ≠ [] := lineHeaderName_some_ne hl
      simp only [segLoop, hl]
      rw [ih line nm [] (flushInto (some (h, n)) content acc) hnm]
      rw [blockContents_flush_some h n content acc hn]
      rw [List.filter_cons]
      simp [hl]
    | none =>
      by_cases hs : (strip line).isEmpty = true
      · have hstep : segLoop (line :: rest) (some (h, n)) content acc =
            segLoop rest (some (h, n)) content acc := by
          simp only [segLoop, hl]
          rw [isEmpty_false_of_ne_nil hn, hs]
          rfl
        rw [hstep, ih h n content acc hn, List.filter_cons]
        simp [hl, hs]
      · have hs2 : (strip line).isEmpty = false := by
          cases hx : (strip line).isEmpty with
          | false => rfl
          | true => exact absurd hx hs
        have hstep : segLoop (line :: rest) (some (h, n)) content acc =
            segLoop rest (some (h, n)) (content ++ [line]) acc := by
          simp only [segLoop, hl]
          rw [isEmpty_false_of_ne_nil hn, hs2]
          rfl
        rw [hstep, ih h n (content ++ [line]) acc hn, List.filter_cons]
        simp [hl, hs2]

lemma segLoop_skip (lines : List (List Char)) :
    ∀ acc, segLoop lines none [] acc =
      segLoop (lines.dropWhile (fun l => (lineHeaderName l).isNone)) none [] acc := by
  induction lines with
  | nil => intro acc; rfl
  | cons line rest ih =>
    intro acc
    rw [List.dropWhile_cons]
    cases hl : lineHeaderName line with
    | some nm => simp [hl]
    | none =>
      simp only [hl, Option.isNone_none, if_true]
      calc segLoop (line :: rest) none [] acc = segLoop rest none [] acc := by
            simp only [segLoop, hl]
        _ = _ := ih acc

lemma dropWhile_head_not {p : List Char → Bool} :
    ∀ (l : List (List Char)) (x : List Char) (xs : List (List Char)),
    l.dropWhile p = x :: xs → p x = false := by
  intro l
  induction l with
  | nil => intro x xs h; simp at h
  | cons a t ih =>
    intro x xs h
    rw [List.dropWhile_cons] at h
    by_cases hp : p a = true
    · rw [if_pos hp] at h; exact ih x xs h
    · rw [if_neg hp] at h
      injection h with h1 _
      subst h1
      cases hb : p a with
      | false => rfl
      | true => exact absurd hb hp

lemma flush_good (cur : Option (List Char × List Char)) (content : List (List Char))
    (acc : List SecBlock)
    (hcur : ∀ h n, cur = some (h, n) → lineHeaderName h = some n ∧ noNL h)
    (hc : ∀ l ∈ content, goodLine l ∧ noNL l)
    (ha : ∀ b ∈ acc, GoodBlock b) :
    ∀ b ∈ flushInto cur content acc, GoodBlock b := by
  intro b hb
  cases cur with
  | none => exact ha b hb
  | some pr =>
    obtain ⟨h, n⟩ := pr
    rw [flushInto_some_eq] at hb
    by_cases hg : (!n.isEmpty && !content.isEmpty) = true
    · rw [if_pos hg] at hb
      rcases List.mem_append.mp hb with h1 | h1
      · exact ha b h1
      · have hb2 : b = ⟨h, n, content⟩ := by simpa using h1
        subst hb2
        obtain ⟨hh, hnl⟩ := hcur h n rfl
        refine ⟨hh, ?_, fun l hl => (hc l hl).1, hnl, fun l hl => (hc l hl).2⟩
        intro hcn
        have hcn2 : content = [] := hcn
        rw [hcn2] at hg
        simp at hg
    · rw [if_neg hg] at hb
      exact ha b hb

lemma segLoop_good (lines : List (List Char)) :
    ∀ (cur : Option (List Char × List Char)) (content : List (List Char)) (acc : List SecBlock),
    (∀ l ∈ lines, noNL l) →
    (∀ h n, cur = some (h, n) → lineHeaderName h = some n ∧ noNL h) →
    (∀ l ∈ content, goodLine l ∧ noNL l) →
    (∀ b ∈ acc, GoodBlock b) →
    ∀ b ∈ segLoop lines cur content acc, GoodBlock b := by
  induction lines with
  | nil =>
    intro cur content acc _ hcur hc ha
    simp only [segLoop]
    exact flush_good cur content acc hcur hc ha
  | cons line rest ih =>
    intro cur content acc hlines hcur hc ha
    have hline : noNL line := hlines line (by simp)
    have hrest : ∀ l ∈ rest, noNL l := fun l hl => hlines l (by simp [hl])
    cases hl : lineHeaderName line with
    | some nm =>
      simp only [segLoop, hl]
      refine ih (some (line, nm)) [] (flushInto cur content acc) hrest ?_ ?_ ?_
      · intro h n he
        simp at he
        obtain ⟨rfl, rfl⟩ := he
        exact ⟨hl, hline⟩
      · intro l hl2; simp at hl2
      · exact flush_good cur content acc hcur hc ha
    | none =>
      cases cur with
      | none =>
        have hstep : segLoop (line :: rest) none content acc =
            segLoop rest none content acc := by
          simp only [segLoop, hl]
        rw [hstep]
        exact ih none content acc hrest hcur hc ha
      | some pr =>
        obtain ⟨h, n⟩ := pr
        by_cases hg : (!n.isEmpty && !(strip line).isEmpty) = true
        · have hstep : segLoop (line :: rest) (some (h, n)) content acc =
              segLoop rest (some (h, n)) (content ++ [line]) acc := by
            simp only [segLoop, hl]
            rw [if_pos hg]
          rw [hstep]
          refine ih (some (h, n)) (content ++ [line]) acc hrest hcur ?_ ha
          intro l hl2
          rcases List.mem_append.mp hl2 with h1 | h1
          · exact hc l h1
          · have he : l = line := by simpa using h1
            subst he
            have h2 : n.isEmpty = false ∧ (strip l).isEmpty = false := by
              simpa using hg
            exact ⟨⟨hl, h2.2⟩, hline⟩
        · have hstep : segLoop (line :: rest) (some (h, n)) content acc =
              segLoop rest (some (h, n)) content acc := by
            simp only [segLoop, hl]
            rw [if_neg hg]
          rw [hstep]
          exact ih (some (h, n)) content acc hrest hcur hc ha

lemma sectionsRawOf_good (text : List Char) : ∀ b ∈ sectionsRawOf text, GoodBlock b := by
  apply segLoop_good
  · exact fun l hl => splitLines_noNL text l hl
  · intro h n he; exact Option.noConfusion he
  · intro l hl; simp at hl
  · intro b hb; simp at hb

lemma segLoop_content_run (cls : List (List Char)) :
    ∀ (rest : List (List Char)) (h n : List Char) (cs : List (List Char)) (acc : List SecBlock),
    n ≠ [] → (∀ l ∈ cls, goodLine l) →
    segLoop (cls ++ rest) (some (h, n)) cs acc = segLoop rest (some (h, n)) (cs ++ cls) acc := by
  induction cls with
  | nil => intro rest h n cs acc _ _; simp
  | cons l cls ih =>
    intro rest h n cs acc hn hall
    obtain ⟨hl, hs⟩ := hall l (by simp)
    rw [List.cons_append]
    simp only [segLoop, hl]
    have hcond : (!n.isEmpty && !(strip l).isEmpty) = true := by
      rw [isEmpty_false_of_ne_nil hn, hs]; rfl
    rw [if_pos hcond]
    rw [ih rest h n (cs ++ [l]) acc hn (fun x hx => hall x (by simp [hx]))]
    simp

lemma segLoop_blocks (bs : List SecBlock) :
    ∀ (h n : List Char) (cs : List (List Char)) (acc : List SecBlock),
    n ≠ [] → cs ≠ [] → (∀ b ∈ bs, GoodBlock b) →
    segLoop (blockLinesAll bs) (some (h, n)) cs acc = acc ++ ⟨h, n, cs⟩ :: bs := by
  induction bs with
  | nil =>
    intro h n cs acc hn hcs _
    simp only [blockLinesAll, segLoop]
    rw [flushInto_some_ne h n cs acc hn hcs]
  | cons b bs ih =>
    intro h n cs acc hn hcs hall
    obtain ⟨hbh, hbc, hbl, _, _⟩ := hall b (by simp)
    simp only [blockLinesAll]
    simp only [segLoop, hbh]
    rw [flushInto_some_ne h n cs acc hn hcs]
    rw [segLoop_content_run b.contentLines (blockLinesAll bs) b.header b.name [] _
      (lineHeaderName_some_ne hbh) hbl]
    rw [List.nil_append]
    rw [ih b.header b.name b.contentLines _
      (lineHeaderName_some_ne hbh) hbc (fun x hx => hall x (by simp [hx]))]
    simp

lemma segLoop_no_header (lines : List (List Char)) :
    ∀ acc, (∀ l ∈ lines, lineHeaderName l = none) → segLoop lines none [] acc = acc := by
  induction lines with
  | nil => intro acc _; rfl
  | cons line rest ih =>
    intro acc hall
    have hl := hall line (by simp)
    simp only [segLoop, hl]
    exact ih acc (fun l h2 => hall l (by simp [h2]))

lemma segLoop_all_headers (lines : List (List Char)) :
    ∀ (cur : Option (List Char × List Char)) (acc : List SecBlock),
    (∀ l ∈ lines, (lineHeaderName l).isSome = true) →
    segLoop lines cur [] acc = acc := by
  induction lines with
  | nil =>
    intro cur acc _
    simp only [segLoop]
    exact flushInto_nilContent cur acc
  | cons line rest ih =>
    intro cur acc hall
    have hsome := hall line (by simp)
    cases hl : lineHeaderName line with
    | none => rw [hl] at hsome; simp at hsome
    | some nm =>
      simp only [segLoop, hl]
      rw [flushInto_nilContent]
      exact ih (some (line, nm)) acc (fun l h2 => hall l (by simp [h2]))

lemma lineHeaderName_none_of_not_header {l : List Char}
    (h : (is_section_header (strip l)).1 = false) : lineHeaderName l = none := by
  unfold lineHeaderName
  rw [h]
  simp

lemma split_into_sections_ne_nil (text : List Char) : split_into_sections text ≠ [] := by
  unfold split_into_sections
  by_cases hs : ((sectionsRawOf text).map
      (fun b => create_section b.name b.contentLines)).isEmpty = true
  · rw [if_pos hs]; simp
  · rw [if_neg hs]
    intro h
    rw [h] at hs
    simp at hs

lemma joinLines_blocks (bs : List SecBlock) (h : ∀ b ∈ bs, b.contentLines ≠ []) :
    joinLines (bs.map (fun b => joinLines b.contentLines)) = joinLines (blockContents bs) := by
  induction bs with
  | nil => rfl
  | cons b bs ih =>
    cases bs with
    | nil => simp [blockContents, joinLines]
    | cons b2 bs2 =>
      have hb : b.contentLines ≠ [] := h b (by simp)
      have h2 : ∀ x ∈ b2 :: bs2, x.contentLines ≠ [] := fun x hx => h x (by simp [hx])
      have hbc : blockContents (b2 :: bs2) ≠ [] := by
        have h3 : b2.contentLines ≠ [] := h b2 (by simp)
        cases c2 : b2.contentLines with
        | nil => exact absurd c2 h3
        | cons a as => simp [blockContents, c2]
      rw [List.map_cons]
      rw [joinLines_cons _ _ (by simp)]
      rw [ih h2]
      rw [show blockContents (b :: b2 :: bs2) = b.contentLines ++ blockContents (b2 :: bs2)
        from rfl]
      rw [joinLines_append _ _ hb hbc]

lemma bulletsGo_eq_filterMap (lines : List (List Char)) :
    bulletsGo lines = lines.filterMap (fun l => (tryBullet bulletPatterns l).map strip) := by
  induction lines with
  | nil => rfl
  | cons l rest ih =>
    cases h : tryBullet bulletPatterns l with
    | none => simp [bulletsGo, h, ih]
    | some g => simp [bulletsGo, h, ih]

/-! Claim theorems. -/

/-- Claim C1: for every resume text and requirement lists (hard skills,
then soft skills, then keywords, concatenated, duplicates kept),
`calculate_match_score` returns `round((M / N) * 100, 1)` computed in
Python binary64 float arithmetic, where `N` is the length of the
concatenated list and `M` counts items whose lowercased form is a
substring of the lowercased resume; for `N = 0` it returns exactly `0.0`.
The two concrete conjuncts pin the float semantics: at `M = 23, N = 80`
the score is the double nearest `28.7` (the float product being
`28.749999999999996`), which differs from the `28.8` that exact-rational
one-decimal rounding of `28.75` would give. -/
theorem match_score_formula :
    (∀ (resume : List Char) (ja : JobAnalysis),
      calculate_match_score resume ja =
        if (ja.hard_skills ++ ja.soft_skills ++ ja.keywords).length = 0 then 0
        else
          ratOfFrac (pyRound1 (pyMulFloat
            (pyDivFloat
              ((ja.hard_skills ++ ja.soft_skills ++ ja.keywords).countP
                (fun item => containsSub (List.map lowerC resume) (List.map lowerC item)))
              ((ja.hard_skills ++ ja.soft_skills ++ ja.keywords).length))
            (100, 1)))) ∧
    calculate_match_score (r"a").data
        ⟨List.replicate 23 (r"a").data, [], List.replicate 57 (r"z").data⟩ =
      ratOfFrac (fpRound 287 10) ∧
    ratOfFrac (fpRound 287 10) ≠ ratOfFrac (roundTo1Frac 2875 100) := by
  refine ⟨?_, by decide, by decide⟩
  intro resume ja
  unfold calculate_match_score
  cases h : ja.hard_skills ++ ja.soft_skills ++ ja.keywords with
  | nil => rfl
  | cons x xs => rfl

/-- Claim C2, counterexample: on `"x\nEDUCATION\ny"` the segmenter drops
the non-header line `"x"` that precedes the first recognized header, so
the concatenated section contents do not reproduce all non-header,
non-blank lines of the input. -/
theorem c2_counterexample :
    joinLines ((split_into_sections c2Text).map (fun s => s.content)) ≠
      joinLines ((splitLines c2Text).filter
        (fun l => (lineHeaderName l).isNone && !(strip l).isEmpty)) := by decide

/-- Claim C2, amended: when the loop finalizes at least one section, the
concatenation of the emitted section contents (with separating newlines)
equals exactly the non-header, non-blank lines that occur after the first
header line of the input — lines before the first header are dropped. -/
theorem segmenter_content_amended (text : List Char) (hne : sectionsRawOf text ≠ []) :
    joinLines ((split_into_sections text).map (fun s => s.content)) =
      joinLines (((splitLines text).dropWhile (fun l => (lineHeaderName l).isNone)).filter
        (fun l => (lineHeaderName l).isNone && !(strip l).isEmpty)) := by
  have hgood : ∀ b ∈ sectionsRawOf text, GoodBlock b := sectionsRawOf_good text
  have hcls : ∀ b ∈ sectionsRawOf text, b.contentLines ≠ [] := fun b hb => (hgood b hb).2.1
  have hmapne : (sectionsRawOf text).map (fun b => create_section b.name b.contentLines) ≠ [] := by
    intro h
    exact hne (List.map_eq_nil_iff.mp h)
  have hmap : (split_into_sections text).map (fun s => s.content) =
      (sectionsRawOf text).map (fun b => joinLines b.contentLines) := by
    unfold split_into_sections
    rw [if_neg]
    · rw [List.map_map]
      rfl
    · rw [isEmpty_false_of_ne_nil hmapne]
      simp
  rw [hmap, joinLines_blocks _ hcls]
  have hskip := segLoop_skip (splitLines text) []
  cases hd : (splitLines text).dropWhile (fun l => (lineHeaderName l).isNone) with
  | nil =>
    exfalso
    apply hne
    unfold sectionsRawOf
    rw [hskip, hd]
    rfl
  | cons l rest =>
    have hpl : (lineHeaderName l).isNone = false := dropWhile_head_not _ l rest hd
    cases hl : lineHeaderName l with
    | none => rw [hl] at hpl; simp at hpl
    | some nm =>
      have hnm := lineHeaderName_some_ne hl
      have hraw : sectionsRawOf text = segLoop rest (some (l, nm)) [] [] := by
        unfold sectionsRawOf
        rw [hskip, hd]
        simp only [segLoop, hl, flushInto_none_eq]
      rw [hraw, segLoop_contents rest l nm [] [] hnm, List.filter_cons]
      simp [hl, blockContents]

/-- Claim C2, witness input for the amended theorem. -/
theorem c2_amended_witness :
    joinLines ((split_into_sections c2WitnessText).map (fun s => s.content)) =
      joinLines (((splitLines c2WitnessText).dropWhile
          (fun l => (lineHeaderName l).isNone)).filter
        (fun l => (lineHeaderName l).isNone && !(strip l).isEmpty)) :=
  segmenter_content_amended c2WitnessText (by decide)

/-- Claim C3, counterexample: on the header-free input `"  hello world"`
the fallback section's content is the raw input, not the trimmed input
claimed by the spec. -/
theorem c3_counterexample :
    split_into_sections c3Text = [⟨(r"Full Resume").data, c3Text, []⟩] ∧
    c3Text ≠ strip c3Text := ⟨by decide, by decide⟩

/-- Claim C3, amended: when no line of the input is recognized as a
section header (neither by pattern nor by the fallback heuristic),
segmentation yields exactly one section named "Full Resume" whose content
is the raw (untrimmed) input text. -/
theorem segmenter_no_headers_amended (text : List Char)
    (hno : ∀ l ∈ splitLines text, (is_section_header (strip l)).1 = false) :
    split_into_sections text = [⟨(r"Full Resume").data, text, extract_bullet_points text⟩] := by
  have hraw : sectionsRawOf text = [] := by
    unfold sectionsRawOf
    exact segLoop_no_header (splitLines text) []
      (fun l hl => lineHeaderName_none_of_not_header (hno l hl))
  unfold split_into_sections
  rw [hraw]
  rfl

/-- Claim C3, witness input for the amended theorem. -/
theorem c3_amended_witness :
    split_into_sections c3WitnessText =
      [⟨(r"Full Resume").data, c3WitnessText, extract_bullet_points c3WitnessText⟩] :=
  segmenter_no_headers_amended c3WitnessText (by decide)

/-- Claim C4, counterexample: the header `"EXPERIENCE SUMMARY"` is matched
by the experience pattern but contains `SUMMARY`, which is tested first, so
it is emitted as "Professional Summary", refuting "any header containing
EXPERIENCE or EMPLOYMENT maps to Work Experience". -/
theorem c4_counterexample :
    is_section_header (r"EXPERIENCE SUMMARY").data =
      (true, some (r"Professional Summary").data) ∧
    (r"Professional Summary").data ≠ (r"Work Experience").data := ⟨by decide, by decide⟩

/-- Claim C4, amended: the canonical name is chosen by case-insensitive
substring tests in a fixed priority order with Summary/Profile/Objective
first; a header containing EXPERIENCE or EMPLOYMENT and none of SUMMARY,
PROFILE, OBJECTIVE maps to "Work Experience"; and the two concrete
examples hold: `"WORK EXPERIENCE"` yields "Work Experience" and
`"Core Competencies"` yields "Skills". -/
theorem normalize_amended :
    (∀ s : List Char,
        (containsSub (List.map upperC (rstripColon (strip s))) (r"EXPERIENCE").data ||
          containsSub (List.map upperC (rstripColon (strip s))) (r"EMPLOYMENT").data) = true →
        (containsSub (List.map upperC (rstripColon (strip s))) (r"SUMMARY").data ||
          containsSub (List.map upperC (rstripColon (strip s))) (r"PROFILE").data ||
          containsSub (List.map upperC (rstripColon (strip s))) (r"OBJECTIVE").data) = false →
        normalize_section_name s = (r"Work Experience").data) ∧
    is_section_header (r"WORK EXPERIENCE").data = (true, some (r"Work Experience").data) ∧
    is_section_header (r"Core Competencies").data = (true, some (r"Skills").data) := by
  refine ⟨?_, by decide, by decide⟩
  intro s h1 h2
  simp [normalize_section_name, h1, h2]

/-- Claim C4, witness for the amended universal part. -/
theorem normalize_amended_witness :
    normalize_section_name (r"EMPLOYMENT HISTORY").data = (r"Work Experience").data :=
  normalize_amended.1 (r"EMPLOYMENT HISTORY").data (by decide) (by decide)

/-- Claim C5: behavior of contact extraction at the spec's example input.
The email field is extracted as claimed, but because `PHONE_PATTERN` has
exactly one capture group (the optional country code), `re.findall`
returns that group rather than the whole match, and for `415-555-0100`
the group did not participate — so the stored phone value is the empty
string, which does not contain the digits 5550100. -/
theorem contact_info_at_c5 :
    extract_contact_info c5Text =
      [((r"email").data, (r"jane.doe@example.com").data), ((r"phone").data, [])] ∧
    containsSub [] (r"5550100").data = false := ⟨by decide, by decide⟩

/-- Claim C6: the segmenter always returns a nonempty section list (worst
case the single fallback section), the contact extractor degrades to an
empty mapping, and the scorer returns the defined zero score on an empty
requirement set; all three are total functions of their inputs. -/
theorem total_behavior (text resume : List Char) (ja : JobAnalysis) :
    split_into_sections text ≠ [] ∧
    (ja.hard_skills = [] → ja.soft_skills = [] → ja.keywords = [] →
      calculate_match_score resume ja = 0) ∧
    extract_contact_info [] = [] := by
  refine ⟨split_into_sections_ne_nil text, ?_, by decide⟩
  intro h1 h2 h3
  unfold calculate_match_score
  rw [h1, h2, h3]
  rfl

/-- Claim C6, witness at concrete inputs. -/
theorem total_behavior_witness :
    split_into_sections [] ≠ [] ∧
    calculate_match_score (r"anything").data ⟨[], [], []⟩ = 0 ∧
    extract_contact_info [] = [] :=
  ⟨(total_behavior [] (r"anything").data ⟨[], [], []⟩).1,
   (total_behavior [] (r"anything").data ⟨[], [], []⟩).2.1 rfl rfl rfl,
   (total_behavior [] (r"anything").data ⟨[], [], []⟩).2.2⟩

/-- Claim C7, counterexample: `"MY STUFF"` is a heuristic-only header
(matches no known pattern, is short and uppercase); the emitted name is
its own text `"MY STUFF"`, not the title-cased `"My Stuff"` claimed by the
spec. -/
theorem c7_counterexample :
    is_section_header (r"MY STUFF").data = (true, some (r"MY STUFF").data) ∧
    titlePy (r"MY STUFF").data = (r"My Stuff").data ∧
    (r"MY STUFF").data ≠ (r"My Stuff").data := ⟨by decide, by decide, by decide⟩

/-- Claim C7, amended: a header recognized only by the fallback heuristic
keeps its own text as the section name — with trailing colons removed and
surrounding whitespace stripped, but its original letter case preserved
(no title-casing). -/
theorem heuristic_header_amended (line : List Char)
    (hpat : sectionPatterns.any (fun re => (reMatch re line).isSome) = false)
    (hlen : line.length < 50)
    (hcase : (isupperPy line || istitlePy line) = true) :
    is_section_header line =
      (true, some (strip (if line.any (fun c => c == ':') then rstripColon line else line))) := by
  have hc2 : (decide (line.length < 50) && (isupperPy line || istitlePy line)) = true := by
    rw [hcase, decide_eq_true hlen]
    rfl
  unfold is_section_header
  rw [hpat, hc2]
  rfl

/-- Claim C7, witness for the amended theorem. -/
theorem heuristic_header_amended_witness :
    is_section_header (r"MY STUFF").data =
      (true, some (strip (if ((r"MY STUFF").data).any (fun c => c == ':')
        then rstripColon (r"MY STUFF").data else (r"MY STUFF").data))) :=
  heuristic_header_amended (r"MY STUFF").data (by decide) (by decide) (by decide)

/-- Claim C8: bullet extraction processes each line once, first matching
pattern wins (in the fixed source order), emitting the captured text after
the marker, stripped; on `"- Led a team of 5 engineers"` it yields exactly
`"Led a team of 5 engineers"`. -/
theorem bullets_spec :
    (∀ text : List Char, extract_bullet_points text =
        (splitLines text).filterMap (fun l => (tryBullet bulletPatterns l).map strip)) ∧
    extract_bullet_points (r"- Led a team of 5 engineers").data =
      [(r"Led a team of 5 engineers").data] := by
  refine ⟨?_, by decide⟩
  intro text
  exact bulletsGo_eq_filterMap (splitLines text)

/-- Claim C9: the segmenter is idempotent with respect to its own output —
re-running it on the reconstruction of its emitted sections (contents
re-joined with each section's original header line reinserted) yields
exactly the same sections as the first pass. -/
theorem segmenter_idempotent (text : List Char) :
    split_into_sections (reconstructText text) = split_into_sections text := by
  cases hbs : sectionsRawOf text with
  | nil =>
    have hrec : reconstructText text = text := by
      unfold reconstructText
      rw [hbs]
    rw [hrec]
  | cons b bs =>
    have hgood : ∀ x ∈ sectionsRawOf text, GoodBlock x := sectionsRawOf_good text
    have hgood2 : ∀ x ∈ b :: bs, GoodBlock x := by rw [← hbs]; exact hgood
    obtain ⟨hbh, hbc, hbl, hbn, hbm⟩ := hgood2 b (by simp)
    have hrec : reconstructText text = joinLines (blockLinesAll (b :: bs)) := by
      unfold reconstructText
      rw [hbs]
    have hnoNL : ∀ l ∈ blockLinesAll (b :: bs), noNL l := blockLinesAll_noNL _ hgood2
    have hne : blockLinesAll (b :: bs) ≠ [] := by simp [blockLinesAll]
    have hsplit : splitLines (reconstructText text) = blockLinesAll (b :: bs) := by
      rw [hrec]
      exact splitLines_joinLines hne hnoNL
    have hraw2 : sectionsRawOf (reconstructText text) = b :: bs := by
      unfold sectionsRawOf
      rw [hsplit]
      simp only [blockLinesAll]
      simp only [segLoop, hbh, flushInto_none_eq]
      rw [segLoop_content_run b.contentLines (blockLinesAll bs) b.header b.name [] _
        (lineHeaderName_some_ne hbh) hbl]
      rw [List.nil_append]
      rw [segLoop_blocks bs b.header b.name b.contentLines []
        (lineHeaderName_some_ne hbh) hbc (fun x hx => hgood2 x (by simp [hx]))]
      rfl
    unfold split_into_sections
    rw [hraw2, hbs]
    rfl

/-- Claim C10: the segmenter always returns a nonempty list, and the
"Full Resume" fallback fires exactly when no section was finalized — in
particular an input consisting solely of recognized header lines still
yields the single fallback section holding the entire raw input, headers
included. -/
theorem segmenter_fallback_iff (text : List Char) :
    split_into_sections text ≠ [] ∧
    ((∀ l ∈ splitLines text, (lineHeaderName l).isSome = true) →
      split_into_sections text = [⟨(r"Full Resume").data, text, extract_bullet_points text⟩]) := by
  refine ⟨split_into_sections_ne_nil text, ?_⟩
  intro hall
  have hraw : sectionsRawOf text = [] := by
    unfold sectionsRawOf
    exact segLoop_all_headers (splitLines text) none [] hall
  unfold split_into_sections
  rw [hraw]
  rfl

/-- Claim C10, witness: an input made only of header lines. -/
theorem c10_fallback_witness :
    split_into_sections c10WitnessText =
      [⟨(r"Full Resume").data, c10WitnessText, extract_bullet_points c10WitnessText⟩] :=
  (segmenter_fallback_iff c10WitnessText).2 (by decide)

end ResumeMatcher
